import Mathlib

/-
Shallow embedding of `src/rpn_calc.py` (module `src.rpn_calc`), an RPN
calculator with a tokenizer, a stack-based evaluator, binary operators,
unary `$`/`~` tokens and a registry of built-in functions.

Modelling conventions:
* Python `str` is embedded as `List Char` (ASCII inputs only are ever used
  by the claims); the public entry point also accepts a Lean `String`.
* Python `int` is embedded as `Int` (arbitrary precision, like Python).
* Python `float` is embedded as `ℚ` (an idealization of IEEE doubles:
  exact where the code only adds/multiplies/divides decimal literals;
  transcendental library results such as `math.sqrt` of a non-square are
  approximated and no theorem below depends on their payload).
* Python `None` (which `_call_builtin` can return by falling through every
  dispatch branch) is the third `PyVal` constructor.
* Python exceptions are embedded as explicit `Except` error values:
  `CalculatorError` is `CalcErr` (one constructor per distinct `raise` site
  of the source, so error kinds stay distinguishable), native exceptions
  (`TypeError`, `ZeroDivisionError`, `ValueError`, `IndexError`,
  `RecursionError`) are `PyExc`.
* The recursion of `evaluate_rpn_input` into nested `(...)` tokens is
  embedded with a fuel parameter (`length + 1` at the entry point, strictly
  more than the possible nesting depth); exhausted fuel plays the role of
  Python's `RecursionError`, which the generic `except Exception` handler
  of the source would wrap into a CalculatorError.
-/

namespace Rpn

/-- Embedding of the distinct `raise CalculatorError(...)` sites of
`src/rpn_calc.py` (plus the two `except` translations at the entry point).
Each constructor corresponds to one message string of the source. -/
inductive CalcErr where
  /-- "Несбалансированные скобки" (`_find_matching_parenthesis`). -/
  | unbalancedParens
  /-- "Неизвестный символ: ..." (`_tokenize_expression`). -/
  | unknownSymbol (c : Char)
  /-- "Неизвестная функция: ..." (`_call_builtin`). -/
  | unknownFunction (name : List Char)
  /-- "Функция ... ожидает от ... до ... аргументов" (`_call_builtin`). -/
  | functionArityError (name : List Char)
  /-- "Ошибка при выполнении ..." (`_call_builtin`, `except` wrapper). -/
  | functionExecError (name : List Char)
  /-- "Деление на ноль" (`_apply_operator` for `/`, `//`, `%`, and the
  `except ZeroDivisionError` handler of `evaluate_rpn_input`). -/
  | divisionByZero
  /-- "// требует целых операндов" / "% требует целых операндов". -/
  | intOperandsRequired (op : List Char)
  /-- "Неизвестный оператор: ..." (`_apply_operator` fallthrough). -/
  | unknownOperator (op : List Char)
  /-- "Недостаточно операндов для унарной операции" (`_evaluate_tokens`). -/
  | insufficientUnary
  /-- "Недостаточно операндов для оператора ..." (`_evaluate_tokens`). -/
  | insufficientOperator (op : List Char)
  /-- "Недостаточно аргументов для функции ..." (`_evaluate_tokens`). -/
  | insufficientFunctionArgs (name : List Char)
  /-- "Неизвестный токен: ..." (`_evaluate_tokens` fallthrough). -/
  | unknownToken (t : List Char)
  /-- "Неправильное выражение: стек не свёлся к одному значению". -/
  | malformedExpression
  /-- "Недостаточно операндов для операции" (`except IndexError`). -/
  | insufficientOperands
  /-- "Ошибка вычисления: ..." (`except Exception` generic wrapper). -/
  | evaluationError
  deriving DecidableEq, Repr

/-- Native Python exceptions that the embedded code can raise. -/
inductive PyExc where
  | typeError
  | zeroDivisionError
  | valueError
  | indexError
  | recursionError
  deriving DecidableEq, Repr

/-- An exception in flight inside the pipeline: either a `CalculatorError`
or a native Python exception. -/
inductive Exc where
  | calcE (e : CalcErr)
  | py (e : PyExc)
  deriving DecidableEq, Repr

/-- A Python runtime value as it can appear on the operand stack: an `int`,
a `float` (idealized as `ℚ`), or `None` (produced by the fallthrough of
`_call_builtin`). -/
inductive PyVal where
  | int (n : Int)
  | float (q : ℚ)
  | none
  deriving DecidableEq, Repr

instance {ε α : Type} [DecidableEq ε] [DecidableEq α] : DecidableEq (Except ε α)
  | .ok a, .ok b =>
    if h : a = b then .isTrue (by rw [h]) else .isFalse (by intro hc; injection hc; exact h ‹_›)
  | .ok _, .error _ => .isFalse (by intro hc; exact Except.noConfusion hc)
  | .error _, .ok _ => .isFalse (by intro hc; exact Except.noConfusion hc)
  | .error e, .error f =>
    if h : e = f then .isTrue (by rw [h]) else .isFalse (by intro hc; injection hc; exact h ‹_›)

/-- `True` on numbers, `false` on `None`. -/
def PyVal.isNum : PyVal → Bool
  | .int _ => true
  | .float _ => true
  | .none => false

/-- `isinstance(v, int)` of the source. -/
def PyVal.isInt : PyVal → Bool
  | .int _ => true
  | _ => false

/-- Numeric value of a `PyVal`, `Option.none` for `None` (Python raises
`TypeError` when arithmetic or comparisons reach a `None`). -/
def toRat : PyVal → Option ℚ
  | .int n => some (n : ℚ)
  | .float q => some q
  | .none => Option.none

/-- Python `v == 0` (numeric comparison; `None == 0` is `False`). -/
def pyEqZero : PyVal → Bool
  | .int n => decide (n = 0)
  | .float q => decide (q = 0)
  | .none => false

/-- Python `a + b` with int/float promotion; `TypeError` on `None`. -/
def pyAdd : PyVal → PyVal → Except PyExc PyVal
  | .int m, .int n => .ok (.int (m + n))
  | .int m, .float q => .ok (.float ((m : ℚ) + q))
  | .float p, .int n => .ok (.float (p + (n : ℚ)))
  | .float p, .float q => .ok (.float (p + q))
  | _, _ => .error .typeError

/-- Python `a - b` with int/float promotion; `TypeError` on `None`. -/
def pySub : PyVal → PyVal → Except PyExc PyVal
  | .int m, .int n => .ok (.int (m - n))
  | .int m, .float q => .ok (.float ((m : ℚ) - q))
  | .float p, .int n => .ok (.float (p - (n : ℚ)))
  | .float p, .float q => .ok (.float (p - q))
  | _, _ => .error .typeError

/-- Python `a * b` with int/float promotion; `TypeError` on `None`. -/
def pyMul : PyVal → PyVal → Except PyExc PyVal
  | .int m, .int n => .ok (.int (m * n))
  | .int m, .float q => .ok (.float ((m : ℚ) * q))
  | .float p, .int n => .ok (.float (p * (n : ℚ)))
  | .float p, .float q => .ok (.float (p * q))
  | _, _ => .error .typeError

/-- Python true division `a / b`: always a float; `ZeroDivisionError` on a
zero divisor (the caller in `_apply_operator` checks `b == 0` first, so
that branch is unreachable there); `TypeError` on `None`. -/
def pyDiv (a b : PyVal) : Except PyExc PyVal :=
  match toRat a, toRat b with
  | some ra, some rb =>
    if rb = 0 then .error .zeroDivisionError else .ok (.float (ra / rb))
  | _, _ => .error .typeError

/-- Modelled: idealization over `ℚ` of a fractional float power (irrational
in general, and complex-valued in Python for a negative base). No theorem
below depends on this payload; it only keeps `pyPow` total. -/
def ratRpow (_a _b : ℚ) : ℚ := 0

/-- Python `a ** b`: `int ** nonneg int` stays `int`; an `int ** negative
int` or any float operand gives a float; `0 ** negative` raises
`ZeroDivisionError`; `TypeError` on `None`. -/
def pyPow : PyVal → PyVal → Except PyExc PyVal
  | .int m, .int n =>
    if 0 ≤ n then .ok (.int (m ^ n.toNat))
    else if m = 0 then .error .zeroDivisionError
    else .ok (.float ((m : ℚ) ^ n))
  | a, b =>
    match toRat a, toRat b with
    | some ra, some rb =>
      if rb.den = 1 then
        if 0 ≤ rb.num then .ok (.float (ra ^ rb.num.toNat))
        else if ra = 0 then .error .zeroDivisionError
        else .ok (.float (ra ^ rb.num))
      else .ok (.float (ratRpow ra rb))
    | _, _ => .error .typeError

/-- Python unary `+a` (the `$` token); `TypeError` on `None`. -/
def pyPos : PyVal → Except PyExc PyVal
  | .int n => .ok (.int n)
  | .float q => .ok (.float q)
  | .none => .error .typeError

/-- Python unary `-a` (the `~` token); `TypeError` on `None`. -/
def pyNeg : PyVal → Except PyExc PyVal
  | .int n => .ok (.int (-n))
  | .float q => .ok (.float (-q))
  | .none => .error .typeError

/-- Python `abs(x)`; `TypeError` on `None`. -/
def pyAbs : PyVal → Except PyExc PyVal
  | .int n => .ok (.int |n|)
  | .float q => .ok (.float |q|)
  | .none => .error .typeError

/-- Kernel-reducible integer square root (largest `k` with `k * k ≤ n`),
used only to keep the `math.sqrt` model computable. -/
def natSqrtLin (n : Nat) : Nat :=
  ((List.range (n + 1)).takeWhile (fun k => k * k ≤ n)).length - 1

/-- Modelled: `math.sqrt` payload idealized over `ℚ` (exact on perfect
squares such as `9 → 3`, an approximation otherwise; no theorem below
depends on a non-square payload). -/
def ratSqrtApprox (q : ℚ) : ℚ :=
  (natSqrtLin q.num.toNat : ℚ) / (natSqrtLin q.den : ℚ)

/-- Python `math.sqrt(x)`: float result; `ValueError` ("math domain
error") on a negative argument; `TypeError` on `None`. -/
def pySqrt (v : PyVal) : Except PyExc PyVal :=
  match toRat v with
  | some q => if q < 0 then .error .valueError else .ok (.float (ratSqrtApprox q))
  | Option.none => .error .typeError

/-- Python `x > y` for stack values; `TypeError` when either is `None`. -/
def pyGT (x y : PyVal) : Except PyExc Bool :=
  match toRat x, toRat y with
  | some a, some b => .ok (decide (b < a))
  | _, _ => .error .typeError

/-- Python `x < y` for stack values; `TypeError` when either is `None`. -/
def pyLT (x y : PyVal) : Except PyExc Bool :=
  match toRat x, toRat y with
  | some a, some b => .ok (decide (a < b))
  | _, _ => .error .typeError

/-- Python `max(args)`: `ValueError` on an empty list, otherwise a left
fold keeping the first maximal element (replacing only on a strict `>`). -/
def pyMaxL : List PyVal → Except PyExc PyVal
  | [] => .error .valueError
  | x :: xs => xs.foldlM (fun acc y => do
      let gt ← pyGT y acc
      pure (if gt then y else acc)) x

/-- Python `min(args)`: `ValueError` on an empty list, otherwise a left
fold keeping the first minimal element (replacing only on a strict `<`). -/
def pyMinL : List PyVal → Except PyExc PyVal
  | [] => .error .valueError
  | x :: xs => xs.foldlM (fun acc y => do
      let lt ← pyLT y acc
      pure (if lt then y else acc)) x

/-- Python `args[i]`: `IndexError` out of range. -/
def getArg (args : List PyVal) (i : Nat) : Except PyExc PyVal :=
  match args.get? i with
  | some v => .ok v
  | Option.none => .error .indexError

/-- Python `char.isspace()` restricted to the ASCII whitespace characters
(the only ones the claims exercise). -/
def pyIsSpace (c : Char) : Bool :=
  c = ' ' || c = '\t' || c = '\n' || c = '\r' || c = '\x0b' || c = '\x0c'

/-- Python `s.strip()`: drop leading and trailing whitespace. -/
def pyStrip (l : List Char) : List Char :=
  ((l.dropWhile pyIsSpace).reverse.dropWhile pyIsSpace).reverse

/-- Modelled from the spec: `src/constants.py` is absent from `src/`; the
spec fixes the operator alphabet `+ - * / // % **` (§4.2, §6 grammar).
Embedded as the list of operator token strings, as `ALLOWED_OPERATORS`
is used both for whole-token membership (`token in ALLOWED_OPERATORS`)
and single-character membership during scanning. -/
def ALLOWED_OPERATORS : List (List Char) :=
  ["+".toList, "-".toList, "*".toList, "/".toList, "//".toList, "%".toList, "**".toList]

/-- Python `char in ALLOWED_OPERATORS` for a single character `char`
(membership of the one-character string). -/
def isOpChar (c : Char) : Bool := ALLOWED_OPERATORS.contains [c]

/-- Modelled from the spec: `src/constants.py` is absent from `src/`; the
spec (§3, §4.2) describes `BUILTIN_FUNCTIONS` as a registry mapping
function names to `(minArgs, maxArgs)`, with fixed-arity `abs`, `sqrt`,
`pow`, variadic `max`/`min` (`maxArgs > minArgs`), count-suffixed names
such as `max3` (used by the repository's own tests), and the unary-minus
form `u-` (spec §8 and `tests/test.py`). The variadic upper bound `10` is
a model choice the claims do not depend on. -/
def BUILTIN_FUNCTIONS : List (List Char × (Nat × Nat)) :=
  [("abs".toList, (1, 1)),
   ("sqrt".toList, (1, 1)),
   ("pow".toList, (2, 2)),
   ("max".toList, (2, 10)),
   ("min".toList, (2, 10)),
   ("max3".toList, (3, 3)),
   ("u-".toList, (1, 1))]

/-- Dictionary lookup `BUILTIN_FUNCTIONS[name]` (`Option.none` models
`name not in BUILTIN_FUNCTIONS`). -/
def lookupFn (name : List Char) : Option (Nat × Nat) :=
  (BUILTIN_FUNCTIONS.find? (fun p => p.1 = name)).map (·.2)

/-- `_find_matching_parenthesis` of the source, recast over the characters
that follow the opening `(`: called with the current nesting `depth`
(initially 1), it returns the consumed span up to and including the
matching `)`, or the "Несбалансированные скобки" error when the depth
never returns to 0 before the end of the input. -/
def _find_matching_parenthesis : List Char → Nat → Except CalcErr (List Char)
  | [], _ => .error .unbalancedParens
  | c :: cs, depth =>
    let depth' := if c = '(' then depth + 1 else if c = ')' then depth - 1 else depth
    if depth' = 0 then .ok [c]
    else
      match _find_matching_parenthesis cs depth' with
      | .ok span => .ok (c :: span)
      | .error e => .error e

/-- `_tokenize_expression` of the source, with a structural fuel argument
(one unit per consumed character, so `length` fuel always suffices; the
fuel-exhaustion branch is unreachable and only keeps the recursion
structural so that concrete runs reduce inside the kernel).
Branch order follows the source: whitespace, `(`-span, number literal
(digit, or `-` immediately followed by a digit, then a greedy run of
digits and dots), operator-or-identifier run, single `$`/`~`, unknown
symbol. -/
def tokenizeF : Nat → List Char → Except CalcErr (List (List Char))
  | _, [] => .ok []
  | 0, _ :: _ => .error .unbalancedParens
  | fuel + 1, c :: cs =>
    if pyIsSpace c then tokenizeF fuel cs
    else if c = '(' then
      match _find_matching_parenthesis cs 1 with
      | .error e => .error e
      | .ok span =>
        match tokenizeF fuel (cs.drop span.length) with
        | .error e => .error e
        | .ok toks => .ok (('(' :: span) :: toks)
    else if c.isDigit || (c = '-' && ((cs.head?.map Char.isDigit).getD false)) then
      let body := cs.takeWhile (fun x => x.isDigit || x = '.')
      match tokenizeF fuel (cs.drop body.length) with
      | .error e => .error e
      | .ok toks => .ok ((c :: body) :: toks)
    else if isOpChar c || c.isAlpha then
      let body := cs.takeWhile (fun x => isOpChar x || x.isAlphanum || x = '_')
      match tokenizeF fuel (cs.drop body.length) with
      | .error e => .error e
      | .ok toks => .ok ((c :: body) :: toks)
    else if c = '$' || c = '~' then
      match tokenizeF fuel cs with
      | .error e => .error e
      | .ok toks => .ok ([c] :: toks)
    else .error (.unknownSymbol c)

/-- `_tokenize_expression(expression)` of the source. -/
def _tokenize_expression (l : List Char) : Except CalcErr (List (List Char)) :=
  tokenizeF l.length l

/-- `_NUMBER_RE.fullmatch(token)` for the pattern `\d+(\.\d+)?` of the
source: a nonempty digit run, optionally followed by a dot and a nonempty
digit run. Note the pattern has no leading minus sign. -/
def numFullmatch (l : List Char) : Bool :=
  let ds := l.takeWhile Char.isDigit
  let rest := l.drop ds.length
  !ds.isEmpty &&
    (rest.isEmpty ||
      (rest.head? = some '.' && !rest.tail.isEmpty && rest.tail.all Char.isDigit))

/-- Numeric value of a digit run. -/
def digitsToNat (l : List Char) : Nat :=
  l.foldl (fun n c => 10 * n + (c.toNat - '0'.toNat)) 0

/-- `float(token) if "." in token else int(token)` of the source, for a
token that matched `_NUMBER_RE` (float payload idealized as exact `ℚ`). -/
def parseNumber (t : List Char) : PyVal :=
  if t.contains '.' then
    let ip := t.takeWhile (fun c => c ≠ '.')
    let fp := (t.dropWhile (fun c => c ≠ '.')).tail
    .float ((digitsToNat ip : ℚ) + (digitsToNat fp : ℚ) / (10 : ℚ) ^ fp.length)
  else .int (digitsToNat t)

/-- `_call_builtin(name, args)` of the source: registry membership check,
arity check, then the `try`-wrapped dispatch on exactly the five names
`abs`, `sqrt`, `pow`, `max`, `min` — any other registered name falls
through every branch and Python returns `None`. Any native exception in
the dispatch is re-raised as the "Ошибка при выполнении" CalculatorError. -/
def _call_builtin (name : List Char) (args : List PyVal) : Except CalcErr PyVal :=
  match lookupFn name with
  | Option.none => .error (.unknownFunction name)
  | some (min_args, max_args) =>
    if min_args ≤ args.length ∧ args.length ≤ max_args then
      let body : Except PyExc PyVal :=
        if name = "abs".toList then do pyAbs (← getArg args 0)
        else if name = "sqrt".toList then do pySqrt (← getArg args 0)
        else if name = "pow".toList then do pyPow (← getArg args 0) (← getArg args 1)
        else if name = "max".toList then pyMaxL args
        else if name = "min".toList then pyMinL args
        else .ok PyVal.none
      match body with
      | .ok v => .ok v
      | .error _ => .error (.functionExecError name)
    else .error (.functionArityError name)

/-- `_apply_operator(a, b, op)` of the source: `+ - *` promote natively;
`/` checks `b == 0` then always produces a float; `// %` require both
operands to be `int` (checked before the zero check) and use Python's
floor division / floor modulus; `**` follows native power semantics; an
unknown operator string raises. Native exceptions (e.g. `TypeError` from
`None + 1`) propagate un-caught as `Exc.py`. -/
def _apply_operator (a b : PyVal) (op : List Char) : Except Exc PyVal :=
  if op = "+".toList then (pyAdd a b).mapError Exc.py
  else if op = "-".toList then (pySub a b).mapError Exc.py
  else if op = "*".toList then (pyMul a b).mapError Exc.py
  else if op = "/".toList then
    if pyEqZero b then .error (.calcE .divisionByZero)
    else (pyDiv a b).mapError Exc.py
  else if op = "//".toList then
    match a, b with
    | .int m, .int n =>
      if n = 0 then .error (.calcE .divisionByZero) else .ok (.int (Int.fdiv m n))
    | _, _ => .error (.calcE (.intOperandsRequired op))
  else if op = "%".toList then
    match a, b with
    | .int m, .int n =>
      if n = 0 then .error (.calcE .divisionByZero) else .ok (.int (Int.fmod m n))
    | _, _ => .error (.calcE (.intOperandsRequired op))
  else if op = "**".toList then (pyPow a b).mapError Exc.py
  else .error (.calcE (.unknownOperator op))

/-- `text.startswith("(") and text.endswith(")")` of the entry point: the
auto-wrap test, which inspects only the first and the last character. -/
def pyWrapped (t : List Char) : Bool :=
  t.head? = some '(' && t.getLast? = some ')'

/-- One iteration of the token loop of `_evaluate_tokens`, parametrized by
the evaluator `ev` used for nested `(...)` tokens (the source recursively
calls `evaluate_rpn_input` there; a `CalculatorError` of the recursive
call propagates unchanged). Branch order follows the source: nested
expression, number literal, unary `$`/`~`, operator, registered function
(variadic consumption when `maxArgs > minArgs`), unknown token. -/
def stepTok (ev : List Char → Except CalcErr PyVal) (t : List Char)
    (stack : List PyVal) : Except Exc (List PyVal) :=
  if t.head? = some '(' ∧ t.getLast? = some ')' then
    match ev t with
    | .ok v => .ok (v :: stack)
    | .error e => .error (.calcE e)
  else if numFullmatch t then .ok (parseNumber t :: stack)
  else if t = "$".toList ∨ t = "~".toList then
    match stack with
    | [] => .error (.calcE .insufficientUnary)
    | a :: rest =>
      match (if t = "$".toList then pyPos a else pyNeg a) with
      | .ok v => .ok (v :: rest)
      | .error e => .error (.py e)
  else if t ∈ ALLOWED_OPERATORS then
    match stack with
    | b :: a :: rest =>
      match _apply_operator a b t with
      | .ok v => .ok (v :: rest)
      | .error e => .error e
    | _ => .error (.calcE (.insufficientOperator t))
  else
    match lookupFn t with
    | some (min_args, max_args) =>
      let applyFn : Nat → Except Exc (List PyVal) := fun num_args =>
        match _call_builtin t ((stack.take num_args).reverse) with
        | .ok v => .ok (v :: stack.drop num_args)
        | .error e => .error (.calcE e)
      if max_args > min_args then
        if stack.length < min_args then .error (.calcE (.insufficientFunctionArgs t))
        else applyFn (min stack.length max_args)
      else
        if stack.length < min_args then .error (.calcE (.insufficientFunctionArgs t))
        else applyFn min_args
    | Option.none => .error (.calcE (.unknownToken t))

/-- The token loop of `_evaluate_tokens` over an explicit stack (head =
top of stack, matching Python's `append`/`pop` at the end of the list). -/
def goTokens (ev : List Char → Except CalcErr PyVal) :
    List (List Char) → List PyVal → Except Exc (List PyVal)
  | [], stack => .ok stack
  | t :: ts, stack =>
    match stepTok ev t stack with
    | .ok stack' => goTokens ev ts stack'
    | .error e => .error e

/-- `_evaluate_tokens(tokens)` of the source: run the token loop on an
empty stack, then require exactly one remaining value ("Неправильное
выражение" otherwise). -/
def _evaluate_tokens (ev : List Char → Except CalcErr PyVal)
    (tokens : List (List Char)) : Except Exc PyVal :=
  match goTokens ev tokens [] with
  | .ok [v] => .ok v
  | .ok _ => .error (.calcE .malformedExpression)
  | .error e => .error e

/-- The `try` body of `evaluate_rpn_input`: strip, auto-wrap unless the
text already starts with `(` and ends with `)`, strip the outer bracket
pair, tokenize the interior, and evaluate the tokens (with `ev` used for
nested expressions). -/
def rpnPipeline (ev : List Char → Except CalcErr PyVal) (s : List Char) :
    Except Exc PyVal :=
  let text := pyStrip s
  let text := if pyWrapped text then text else '(' :: (text ++ [')'])
  let inner_text := pyStrip ((text.drop 1).dropLast)
  match _tokenize_expression inner_text with
  | .error e => .error (.calcE e)
  | .ok tokens => _evaluate_tokens ev tokens

/-- The `except` clauses of `evaluate_rpn_input`: `IndexError` becomes
"Недостаточно операндов для операции", `ZeroDivisionError` becomes
"Деление на ноль", a `CalculatorError` re-raises unchanged, and any other
exception is wrapped as "Ошибка вычисления". -/
def excToCalcErr : Exc → CalcErr
  | .calcE e => e
  | .py .indexError => .insufficientOperands
  | .py .zeroDivisionError => .divisionByZero
  | .py _ => .evaluationError

/-- `evaluate_rpn_input` of the source, fuel-indexed for the recursion
into nested `(...)` tokens; zero fuel models Python's `RecursionError`,
which the generic handler would wrap as "Ошибка вычисления". -/
def evaluate_rpn_inputF : Nat → List Char → Except CalcErr PyVal
  | 0, _ => .error .evaluationError
  | fuel + 1, s =>
    match rpnPipeline (evaluate_rpn_inputF fuel) s with
    | .ok v => .ok v
    | .error e => .error (excToCalcErr e)

/-- `evaluate_rpn_input(rpn_expression)` of the source, on a Lean string.
`length + 1` fuel strictly exceeds the possible nesting depth. -/
def evaluate_rpn_input (s : String) : Except CalcErr PyVal :=
  evaluate_rpn_inputF (s.toList.length + 1) s.toList

/-- Parenthesis balance of a character list: `+1` per `(`, `-1` per `)`.
Specification device used to reason about the tokenizer. -/
def parenBal : List Char → Int
  | [] => 0
  | c :: cs => (if c = '(' then 1 else if c = ')' then -1 else 0) + parenBal cs

/-! ### Helper lemmas -/

/-- Floor division is invariant under negating both arguments. -/
theorem fdiv_neg_neg : ∀ x y : Int, Int.fdiv (-x) (-y) = Int.fdiv x y := by
  intro x y
  rcases x with (_ | m) | m <;> rcases y with (_ | n) | n <;>
    first
      | rfl
      | simp [Int.ofNat_zero, neg_zero, Int.fdiv_zero]

/-- Floor modulus is antisymmetric under negating both arguments. -/
theorem fmod_neg_neg (x y : Int) : Int.fmod (-x) (-y) = -Int.fmod x y := by
  rw [Int.fmod_def, Int.fmod_def, fdiv_neg_neg]
  ring

theorem parenBal_cons (c : Char) (l : List Char) :
    parenBal (c :: l) = (if c = '(' then 1 else if c = ')' then -1 else 0) + parenBal l := rfl

theorem parenBal_append (l₁ l₂ : List Char) :
    parenBal (l₁ ++ l₂) = parenBal l₁ + parenBal l₂ := by
  induction l₁ with
  | nil => simp [parenBal]
  | cons c cs ih =>
    simp only [List.cons_append, parenBal_cons, ih]
    ring

theorem parenBal_eq_zero_of_no_paren {l : List Char}
    (h : ∀ c ∈ l, c ≠ '(' ∧ c ≠ ')') : parenBal l = 0 := by
  induction l with
  | nil => rfl
  | cons c cs ih =>
    have hc := h c (by simp)
    rw [parenBal_cons, if_neg hc.1, if_neg hc.2, ih fun x hx => h x (by simp [hx])]
    ring

theorem pyIsSpace_no_paren {c : Char} (h : pyIsSpace c = true) : c ≠ '(' ∧ c ≠ ')' := by
  simp [pyIsSpace] at h
  rcases h with ((((rfl | rfl) | rfl) | rfl) | rfl) | rfl <;> exact ⟨by decide, by decide⟩

theorem isDigit_no_paren {c : Char} (h : c.isDigit = true) : c ≠ '(' ∧ c ≠ ')' :=
  ⟨by rintro rfl; exact absurd h (by decide), by rintro rfl; exact absurd h (by decide)⟩

theorem numScan_no_paren {c : Char} (h : (c.isDigit || c = '.') = true) :
    c ≠ '(' ∧ c ≠ ')' :=
  ⟨by rintro rfl; exact absurd h (by decide), by rintro rfl; exact absurd h (by decide)⟩

theorem numStart_no_paren {c : Char} (b : Bool) (h : (c.isDigit || (c = '-' && b)) = true) :
    c ≠ '(' ∧ c ≠ ')' := by
  constructor <;> rintro rfl <;> rcases b <;> exact absurd h (by decide)

theorem identScan_no_paren {c : Char} (h : (isOpChar c || c.isAlphanum || c = '_') = true) :
    c ≠ '(' ∧ c ≠ ')' :=
  ⟨by rintro rfl; exact absurd h (by decide), by rintro rfl; exact absurd h (by decide)⟩

theorem identStart_no_paren {c : Char} (h : (isOpChar c || c.isAlpha) = true) :
    c ≠ '(' ∧ c ≠ ')' :=
  ⟨by rintro rfl; exact absurd h (by decide), by rintro rfl; exact absurd h (by decide)⟩

theorem unary_no_paren {c : Char} (h : (c = '$' || c = '~') = true) :
    c ≠ '(' ∧ c ≠ ')' := by
  simp at h
  rcases h with rfl | rfl <;> exact ⟨by decide, by decide⟩

theorem prefix_append_cases {α : Type} {p l₁ l₂ : List α} (h : p <+: l₁ ++ l₂) :
    p <+: l₁ ∨ ∃ r, p = l₁ ++ r ∧ r <+: l₂ := by
  rcases List.prefix_or_prefix_of_prefix h (List.prefix_append l₁ l₂) with h1 | h1
  · exact Or.inl h1
  · obtain ⟨r, rfl⟩ := h1
    exact Or.inr ⟨r, rfl, (List.prefix_append_right_inj l₁).mp h⟩

theorem parenBal_prefix_zero {l p : List Char}
    (hl : ∀ c ∈ l, c ≠ '(' ∧ c ≠ ')') (hp : p <+: l) : parenBal p = 0 :=
  parenBal_eq_zero_of_no_paren fun c hc => hl c (hp.subset hc)

/-- A successful `_find_matching_parenthesis` scan with starting depth `d`
consumes a prefix whose balance is exactly `-d`, whose other prefixes
never drop below `-d`, and which ends at the closing `)`. -/
theorem find_matching_ok :
    ∀ (l : List Char) (d : Nat) (span : List Char), 1 ≤ d →
      _find_matching_parenthesis l d = .ok span →
      span <+: l ∧ parenBal span = -(d : Int) ∧
      (∀ p, p <+: span → -(d : Int) ≤ parenBal p) ∧ span.getLast? = some ')' := by
  intro l
  induction l with
  | nil =>
    intro d span hd h
    exact absurd h (by simp [_find_matching_parenthesis])
  | cons c cs ih =>
    intro d span hd h
    simp only [_find_matching_parenthesis] at h
    by_cases hc1 : c = '('
    · subst hc1
      simp only [reduceIte] at h
      rw [if_neg (show ¬d + 1 = 0 by omega)] at h
      rcases hrec : _find_matching_parenthesis cs (d + 1) with e | span' <;> rw [hrec] at h
      · exact absurd h (by simp)
      · simp only [Except.ok.injEq] at h
        subst h
        obtain ⟨hpre, hbal, hpref, hlast⟩ := ih (d + 1) span' (by omega) hrec
        refine ⟨List.cons_prefix_cons.mpr ⟨rfl, hpre⟩, ?_, ?_, ?_⟩
        · rw [parenBal_cons, if_pos rfl, hbal]
          push_cast
          ring
        · intro p hp
          rcases List.prefix_cons_iff.mp hp with rfl | ⟨q, rfl, hq⟩
          · simp only [parenBal]
            omega
          · have h1 := hpref q hq
            rw [parenBal_cons, if_pos rfl]
            push_cast at h1 ⊢
            omega
        · rcases span' with _ | ⟨s, ss⟩
          · simp at hlast
          · simpa using hlast
    · by_cases hc2 : c = ')'
      · subst hc2
        simp only [reduceIte] at h
        rw [if_neg (show ¬(')' = '(') by decide)] at h
        by_cases hd1 : d - 1 = 0
        · rw [if_pos hd1] at h
          simp only [Except.ok.injEq] at h
          subst h
          have hd' : d = 1 := by omega
          subst hd'
          refine ⟨List.cons_prefix_cons.mpr ⟨rfl, List.nil_prefix⟩, by decide, ?_, rfl⟩
          intro p hp
          rcases List.prefix_cons_iff.mp hp with rfl | ⟨q, rfl, hq⟩
          · decide
          · rw [List.prefix_nil.mp hq]
            decide
        · rw [if_neg hd1] at h
          rcases hrec : _find_matching_parenthesis cs (d - 1) with e | span' <;> rw [hrec] at h
          · exact absurd h (by simp)
          · simp only [Except.ok.injEq] at h
            subst h
            obtain ⟨hpre, hbal, hpref, hlast⟩ := ih (d - 1) span' (by omega) hrec
            refine ⟨List.cons_prefix_cons.mpr ⟨rfl, hpre⟩, ?_, ?_, ?_⟩
            · rw [parenBal_cons, if_neg (show ¬(')' = '(') by decide), if_pos rfl, hbal]
              have hcast : ((d - 1 : Nat) : Int) = (d : Int) - 1 := by omega
              rw [hcast]
              ring
            · intro p hp
              rcases List.prefix_cons_iff.mp hp with rfl | ⟨q, rfl, hq⟩
              · simp only [parenBal]
                omega
              · have h1 := hpref q hq
                rw [parenBal_cons, if_neg (show ¬(')' = '(') by decide), if_pos rfl]
                omega
            · rcases span' with _ | ⟨s, ss⟩
              · simp at hlast
              · simpa using hlast
      · rw [if_neg hc1, if_neg hc2, if_neg (show ¬d = 0 by omega)] at h
        rcases hrec : _find_matching_parenthesis cs d with e | span' <;> rw [hrec] at h
        · exact absurd h (by simp)
        · simp only [Except.ok.injEq] at h
          subst h
          obtain ⟨hpre, hbal, hpref, hlast⟩ := ih d span' hd hrec
          refine ⟨List.cons_prefix_cons.mpr ⟨rfl, hpre⟩, ?_, ?_, ?_⟩
          · rw [parenBal_cons, if_neg hc1, if_neg hc2, hbal]
            ring
          · intro p hp
            rcases List.prefix_cons_iff.mp hp with rfl | ⟨q, rfl, hq⟩
            · simp only [parenBal]
              omega
            · have h1 := hpref q hq
              rw [parenBal_cons, if_neg hc1, if_neg hc2]
              omega
          · rcases span' with _ | ⟨s, ss⟩
            · simp at hlast
            · simpa using hlast

/-- A failing `_find_matching_parenthesis` scan (unbalanced parentheses)
means the depth never returned to zero: every prefix keeps
`d + balance > 0`. -/
theorem find_matching_error :
    ∀ (l : List Char) (d : Nat) (e : CalcErr), 1 ≤ d →
      _find_matching_parenthesis l d = .error e →
      ∀ p, p <+: l → 0 < (d : Int) + parenBal p := by
  intro l
  induction l with
  | nil =>
    intro d e hd _ p hp
    rw [List.prefix_nil.mp hp]
    simp only [parenBal]
    omega
  | cons c cs ih =>
    intro d e hd h p hp
    simp only [_find_matching_parenthesis] at h
    rcases List.prefix_cons_iff.mp hp with rfl | ⟨q, rfl, hq⟩
    · simp only [parenBal]
      omega
    · by_cases hc1 : c = '('
      · subst hc1
        simp only [reduceIte] at h
        rw [if_neg (show ¬d + 1 = 0 by omega)] at h
        rcases hrec : _find_matching_parenthesis cs (d + 1) with e' | sp <;> rw [hrec] at h
        · have h1 := ih (d + 1) e' (by omega) hrec q hq
          rw [parenBal_cons, if_pos rfl]
          push_cast at h1 ⊢
          omega
        · exact absurd h (by simp)
      · by_cases hc2 : c = ')'
        · subst hc2
          simp only [reduceIte] at h
          rw [if_neg (show ¬(')' = '(') by decide)] at h
          by_cases hd1 : d - 1 = 0
          · rw [if_pos hd1] at h
            exact absurd h (by simp)
          · rw [if_neg hd1] at h
            rcases hrec : _find_matching_parenthesis cs (d - 1) with e' | sp <;> rw [hrec] at h
            · have h1 := ih (d - 1) e' (by omega) hrec q hq
              rw [parenBal_cons, if_neg (show ¬(')' = '(') by decide), if_pos rfl]
              omega
            · exact absurd h (by simp)
        · rw [if_neg hc1, if_neg hc2, if_neg (show ¬d = 0 by omega)] at h
          rcases hrec : _find_matching_parenthesis cs d with e' | sp <;> rw [hrec] at h
          · have h1 := ih d e' hd hrec q hq
            rw [parenBal_cons, if_neg hc1, if_neg hc2]
            omega
          · exact absurd h (by simp)

/-- Prepending a non-parenthesis character preserves the tokenizer balance
invariant. -/
theorem balance_char_step {c : Char} {cs : List Char}
    (hcnp : c ≠ '(' ∧ c ≠ ')')
    (hrest : (∀ p, p <+: cs → 0 ≤ parenBal p) ∧ parenBal cs = 0) :
    (∀ p, p <+: c :: cs → 0 ≤ parenBal p) ∧ parenBal (c :: cs) = 0 := by
  obtain ⟨ihp, ihbal⟩ := hrest
  constructor
  · intro p hp
    rcases List.prefix_cons_iff.mp hp with rfl | ⟨q, rfl, hq⟩
    · exact le_refl 0
    · rw [parenBal_cons, if_neg hcnp.1, if_neg hcnp.2]
      have h1 := ihp q hq
      omega
  · rw [parenBal_cons, if_neg hcnp.1, if_neg hcnp.2, ihbal]
    ring

/-- A tokenizer branch that consumes one non-parenthesis character plus a
`takeWhile` run of non-parenthesis characters preserves the balance
invariant. -/
theorem balance_scan_step {c : Char} {cs : List Char} (pred : Char → Bool)
    (hcnp : c ≠ '(' ∧ c ≠ ')')
    (hpnp : ∀ x, pred x = true → x ≠ '(' ∧ x ≠ ')')
    (hrest : (∀ p, p <+: cs.drop (cs.takeWhile pred).length → 0 ≤ parenBal p) ∧
      parenBal (cs.drop (cs.takeWhile pred).length) = 0) :
    (∀ p, p <+: c :: cs → 0 ≤ parenBal p) ∧ parenBal (c :: cs) = 0 := by
  obtain ⟨ihp, ihbal⟩ := hrest
  have hsplit := List.prefix_iff_eq_append.mp (List.takeWhile_prefix (l := cs) pred)
  have hbodynp : ∀ x ∈ cs.takeWhile pred, x ≠ '(' ∧ x ≠ ')' :=
    fun x hx => hpnp x (List.mem_takeWhile_imp hx)
  constructor
  · intro p hp
    rcases List.prefix_cons_iff.mp hp with rfl | ⟨q, rfl, hq⟩
    · exact le_refl 0
    · rw [← hsplit] at hq
      rw [parenBal_cons, if_neg hcnp.1, if_neg hcnp.2]
      rcases prefix_append_cases hq with hq1 | ⟨r, rfl, hr⟩
      · rw [parenBal_prefix_zero hbodynp hq1]
        norm_num
      · rw [parenBal_append, parenBal_eq_zero_of_no_paren hbodynp]
        have h1 := ihp r hr
        omega
  · rw [← hsplit, parenBal_cons, if_neg hcnp.1, if_neg hcnp.2, parenBal_append,
      parenBal_eq_zero_of_no_paren hbodynp, ihbal]
    ring

/-- Soundness of the tokenizer w.r.t. parenthesis balance: a successful
tokenization means no prefix of the input has negative balance and the
whole input is balanced (a stray top-level `)` or an unclosed `(` always
makes `_tokenize_expression` fail). -/
theorem tokenizeF_balance :
    ∀ (fuel : Nat) (l : List Char) (toks : List (List Char)),
      tokenizeF fuel l = .ok toks →
      (∀ p, p <+: l → 0 ≤ parenBal p) ∧ parenBal l = 0 := by
  intro fuel
  induction fuel with
  | zero =>
    intro l toks h
    rcases l with _ | ⟨c, cs⟩
    · exact ⟨fun p hp => by rw [List.prefix_nil.mp hp]; exact le_refl 0, rfl⟩
    · exact absurd h (by simp [tokenizeF])
  | succ fuel ih =>
    intro l toks h
    rcases l with _ | ⟨c, cs⟩
    · exact ⟨fun p hp => by rw [List.prefix_nil.mp hp]; exact le_refl 0, rfl⟩
    · simp only [tokenizeF] at h
      by_cases hws : pyIsSpace c = true
      · rw [if_pos hws] at h
        exact balance_char_step (pyIsSpace_no_paren hws) (ih cs toks h)
      · rw [if_neg hws] at h
        by_cases hc : c = '('
        · rw [if_pos hc] at h
          subst hc
          rcases hfm : _find_matching_parenthesis cs 1 with e | span
          · rw [hfm] at h
            exact absurd h (by simp)
          · simp only [hfm] at h
            rcases htk : tokenizeF fuel (cs.drop span.length) with e | toks' <;> rw [htk] at h
            · exact absurd h (by simp)
            · obtain ⟨hpre, hbal, hpref, _⟩ := find_matching_ok cs 1 span le_rfl hfm
              obtain ⟨u, hu⟩ := hpre
              have hdrop : cs.drop span.length = u := by rw [← hu, List.drop_left]
              rw [hdrop] at htk
              obtain ⟨ihp, ihbal⟩ := ih u toks' htk
              constructor
              · intro p hp
                rcases List.prefix_cons_iff.mp hp with rfl | ⟨q, rfl, hq⟩
                · exact le_refl 0
                · rw [← hu] at hq
                  rw [parenBal_cons, if_pos rfl]
                  rcases prefix_append_cases hq with hq1 | ⟨r, rfl, hr⟩
                  · have h1 := hpref q hq1
                    push_cast at h1 ⊢
                    omega
                  · rw [parenBal_append, hbal]
                    have h1 := ihp r hr
                    push_cast
                    omega
              · rw [← hu, parenBal_cons, if_pos rfl, parenBal_append, hbal, ihbal]
                norm_num
        · rw [if_neg hc] at h
          by_cases hnum : (c.isDigit || (c = '-' && ((cs.head?.map Char.isDigit).getD false))) = true
          · rw [if_pos hnum] at h
            rcases htk : tokenizeF fuel
                (cs.drop (cs.takeWhile (fun x => x.isDigit || x = '.')).length)
              with e | toks' <;> rw [htk] at h
            · exact absurd h (by simp)
            · exact balance_scan_step _ (numStart_no_paren _ hnum)
                (fun x hx => numScan_no_paren hx) (ih _ toks' htk)
          · rw [if_neg hnum] at h
            by_cases hid : (isOpChar c || c.isAlpha) = true
            · rw [if_pos hid] at h
              rcases htk : tokenizeF fuel
                  (cs.drop (cs.takeWhile (fun x => isOpChar x || x.isAlphanum || x = '_')).length)
                with e | toks' <;> rw [htk] at h
              · exact absurd h (by simp)
              · exact balance_scan_step _ (identStart_no_paren hid)
                  (fun x hx => identScan_no_paren hx) (ih _ toks' htk)
            · rw [if_neg hid] at h
              by_cases hun : (c = '$' || c = '~') = true
              · rw [if_pos hun] at h
                rcases htk : tokenizeF fuel cs with e | toks' <;> rw [htk] at h
                · exact absurd h (by simp)
                · exact balance_char_step (unary_no_paren hun) (ih cs toks' htk)
              · rw [if_neg hun] at h
                exact absurd h (by simp)

/-- The input never tokenizes successfully when some prefix has negative
parenthesis balance. -/
theorem tokenize_not_ok_of_neg_prefix {l p : List Char}
    (hp : p <+: l) (hbal : parenBal p < 0) :
    ∀ toks, _tokenize_expression l ≠ .ok toks := by
  intro toks htk
  have h1 := (tokenizeF_balance l.length l toks htk).1 p hp
  omega

/-- The input never tokenizes successfully when its total parenthesis
balance is nonzero. -/
theorem tokenize_not_ok_of_nonzero {l : List Char} (hbal : parenBal l ≠ 0) :
    ∀ toks, _tokenize_expression l ≠ .ok toks := by
  intro toks htk
  exact hbal (tokenizeF_balance l.length l toks htk).2

/-- `pyStrip` splits the input into whitespace, the stripped core, and
whitespace. -/
theorem pyStrip_decomp (l : List Char) :
    ∃ w₁ w₂, l = w₁ ++ pyStrip l ++ w₂ ∧
      (∀ c ∈ w₁, pyIsSpace c = true) ∧ (∀ c ∈ w₂, pyIsSpace c = true) := by
  refine ⟨l.takeWhile pyIsSpace,
    ((l.dropWhile pyIsSpace).reverse.takeWhile pyIsSpace).reverse, ?_, ?_, ?_⟩
  · have h1 : l.takeWhile pyIsSpace ++ l.dropWhile pyIsSpace = l :=
      List.takeWhile_append_dropWhile pyIsSpace l
    have h3 : (l.dropWhile pyIsSpace).reverse.takeWhile pyIsSpace ++
        (l.dropWhile pyIsSpace).reverse.dropWhile pyIsSpace = (l.dropWhile pyIsSpace).reverse :=
      List.takeWhile_append_dropWhile pyIsSpace _
    have h2 : l.dropWhile pyIsSpace =
        pyStrip l ++ ((l.dropWhile pyIsSpace).reverse.takeWhile pyIsSpace).reverse := by
      calc l.dropWhile pyIsSpace
          = (l.dropWhile pyIsSpace).reverse.reverse := (List.reverse_reverse _).symm
        _ = ((l.dropWhile pyIsSpace).reverse.takeWhile pyIsSpace ++
              (l.dropWhile pyIsSpace).reverse.dropWhile pyIsSpace).reverse := by rw [h3]
        _ = pyStrip l ++ ((l.dropWhile pyIsSpace).reverse.takeWhile pyIsSpace).reverse := by
              rw [List.reverse_append]
              rfl
    calc l = l.takeWhile pyIsSpace ++ l.dropWhile pyIsSpace := h1.symm
      _ = l.takeWhile pyIsSpace ++
            (pyStrip l ++ ((l.dropWhile pyIsSpace).reverse.takeWhile pyIsSpace).reverse) := by
          rw [← h2]
      _ = l.takeWhile pyIsSpace ++ pyStrip l ++
            ((l.dropWhile pyIsSpace).reverse.takeWhile pyIsSpace).reverse := by
          rw [List.append_assoc]
  · exact fun c hc => List.mem_takeWhile_imp hc
  · intro c hc
    rw [List.mem_reverse] at hc
    exact List.mem_takeWhile_imp hc

/-- Stripping whitespace does not change the parenthesis balance. -/
theorem parenBal_pyStrip (l : List Char) : parenBal (pyStrip l) = parenBal l := by
  obtain ⟨w₁, w₂, hl, h1, h2⟩ := pyStrip_decomp l
  have hw₁ : parenBal w₁ = 0 :=
    parenBal_eq_zero_of_no_paren fun c hc => pyIsSpace_no_paren (h1 c hc)
  have hw₂ : parenBal w₂ = 0 :=
    parenBal_eq_zero_of_no_paren fun c hc => pyIsSpace_no_paren (h2 c hc)
  conv_rhs => rw [hl]
  rw [parenBal_append, parenBal_append, hw₁, hw₂]
  ring

/-- A prefix with negative balance ending in `)` survives whitespace
stripping: the stripped list also has a negative-balance prefix. -/
theorem strip_prefix_neg {l p : List Char} (hp : p <+: l) (hbal : parenBal p < 0)
    (hlast : p.getLast? = some ')') :
    ∃ u, u <+: pyStrip l ∧ parenBal u < 0 := by
  obtain ⟨w₁, w₂, hl, h1, h2⟩ := pyStrip_decomp l
  have hw₁np : ∀ c ∈ w₁, c ≠ '(' ∧ c ≠ ')' := fun c hc => pyIsSpace_no_paren (h1 c hc)
  have hw₂np : ∀ c ∈ w₂, c ≠ '(' ∧ c ≠ ')' := fun c hc => pyIsSpace_no_paren (h2 c hc)
  rw [hl] at hp
  rcases prefix_append_cases hp with h3 | ⟨r, rfl, hr⟩
  · rcases prefix_append_cases h3 with h4 | ⟨q, rfl, hq⟩
    · exfalso
      have hmem : (')' : Char) ∈ w₁ := h4.subset (List.mem_of_getLast?_eq_some hlast)
      exact (hw₁np ')' hmem).2 rfl
    · refine ⟨q, hq, ?_⟩
      rwa [parenBal_append, parenBal_eq_zero_of_no_paren hw₁np, zero_add] at hbal
  · refine ⟨pyStrip l, List.prefix_refl _, ?_⟩
    rw [parenBal_append, parenBal_append, parenBal_eq_zero_of_no_paren hw₁np,
      parenBal_eq_zero_of_no_paren fun c hc => hw₂np c (hr.subset hc)] at hbal
    omega

/-- A registered name that passes the arity check but is none of the five
dispatched names falls through `_call_builtin` and yields Python `None`. -/
theorem call_builtin_fallthrough (name : List Char) (args : List PyVal) (mn mx : Nat)
    (hl : lookupFn name = some (mn, mx)) (h1 : mn ≤ args.length) (h2 : args.length ≤ mx)
    (habs : name ≠ "abs".toList) (hsqrt : name ≠ "sqrt".toList) (hpow : name ≠ "pow".toList)
    (hmax : name ≠ "max".toList) (hmin : name ≠ "min".toList) :
    _call_builtin name args = .ok PyVal.none := by
  simp only [_call_builtin, hl]
  rw [if_pos ⟨h1, h2⟩, if_neg habs, if_neg hsqrt, if_neg hpow, if_neg hmax, if_neg hmin]

/-- Reduction of `stepTok` on a token that reaches the function branch:
not paren-shaped, not a number literal, not `$`/`~`, not an operator, and
present in the registry. -/
theorem stepTok_function_eq (ev : List Char → Except CalcErr PyVal) (t : List Char)
    (st : List PyVal) (mn mx : Nat)
    (hp : ¬(t.head? = some '(' ∧ t.getLast? = some ')'))
    (hn : numFullmatch t = false)
    (hd1 : t ≠ "$".toList) (hd2 : t ≠ "~".toList)
    (ho : t ∉ ALLOWED_OPERATORS)
    (hl : lookupFn t = some (mn, mx)) :
    stepTok ev t st =
      if mx > mn then
        if st.length < mn then .error (.calcE (.insufficientFunctionArgs t))
        else
          match _call_builtin t ((st.take (min st.length mx)).reverse) with
          | .ok v => .ok (v :: st.drop (min st.length mx))
          | .error e => .error (.calcE e)
      else
        if st.length < mn then .error (.calcE (.insufficientFunctionArgs t))
        else
          match _call_builtin t ((st.take mn).reverse) with
          | .ok v => .ok (v :: st.drop mn)
          | .error e => .error (.calcE e) := by
  simp only [stepTok, hl]
  rw [if_neg hp, if_neg (by simp [hn]),
    if_neg (by rintro (h | h); exacts [hd1 (by simpa using h), hd2 (by simpa using h)]),
    if_neg ho]

/-! ### Claims -/

/-- C1: the tokenizer does emit a leading-minus literal such as `-5` as one
token (the `-`-digit branch of `_tokenize_expression`), but `_NUMBER_RE`
(`\d+(\.\d+)?`) has no leading minus, so `_evaluate_tokens` never parses
the token as a negative number: it falls through to the "Неизвестный
токен" error, and `evaluate_rpn_input("-5 3 +")` raises instead of
returning `-2`. This theorem records the code's actual behavior at the
failing input of the claim. -/
theorem c1_negative_literal_code_behavior :
    _tokenize_expression ("-5 3 +".toList) = .ok ["-5".toList, "3".toList, "+".toList] ∧
    numFullmatch ("-5".toList) = false ∧
    evaluate_rpn_input "-5 3 +" = .error (.unknownToken ("-5".toList)) := by
  refine ⟨by decide, by decide, by decide⟩

/-- C2: `evaluate_rpn_input("5 u-")` does not return `-5`: the token `u-`
passes the registry membership and arity checks, but `_call_builtin`
dispatches only on `abs`/`sqrt`/`pow`/`max`/`min`, so the call falls
through every branch and returns Python `None`, which becomes the final
result. This theorem records the code's actual behavior at the failing
input of the claim. -/
theorem c2_unary_minus_form_code_behavior :
    evaluate_rpn_input "5 u-" = .ok PyVal.none ∧
    evaluate_rpn_input "5 u-" ≠ .ok (.int (-5)) := by
  refine ⟨by decide, by decide⟩

/-- C6: applying `/` fails with the "Деление на ноль" error exactly when
`b == 0`, and otherwise (on numeric operands) always produces a Float;
in particular `"5 0 /"`, `"5 0 //"` and `"5 0 %"` all fail with that
error. -/
theorem c6_true_division_division_by_zero :
    (∀ a b : PyVal,
      (_apply_operator a b ("/".toList) = .error (.calcE .divisionByZero) ↔ pyEqZero b = true) ∧
      (pyEqZero b = false → a.isNum = true → b.isNum = true →
        ∃ q : ℚ, _apply_operator a b ("/".toList) = .ok (.float q))) ∧
    evaluate_rpn_input "5 0 /" = .error .divisionByZero ∧
    evaluate_rpn_input "5 0 //" = .error .divisionByZero ∧
    evaluate_rpn_input "5 0 %" = .error .divisionByZero := by
  refine ⟨fun a b => ⟨?_, ?_⟩, by decide, by decide, by decide⟩
  · by_cases hz : pyEqZero b = true
    · simp [_apply_operator, hz]
    · simp only [Bool.not_eq_true] at hz
      simp only [_apply_operator, hz]
      norm_num
      cases h : pyDiv a b <;> simp [Except.mapError]
  · intro hz ha hb
    rcases a with m | p | _ <;> rcases b with n | q | _ <;>
      simp_all [PyVal.isNum, _apply_operator, pyDiv, toRat, pyEqZero, Except.mapError]

/-- C6 witness: `1 / 2` is not a division by zero and produces a Float. -/
theorem c6_true_division_division_by_zero_witness :
    ∃ q : ℚ, _apply_operator (.int 1) (.int 2) ("/".toList) = .ok (.float q) :=
  (c6_true_division_division_by_zero.1 (.int 1) (.int 2)).2 (by decide) (by decide) (by decide)

/-- C7: `//` and `%` fail with the "требует целых операндов" error whenever
either operand is not an `int` (in particular `"7.5 2 //"` and
`"7.5 2 %"` fail); on `int` operands with a nonzero divisor they follow
floor-division/floor-modulus semantics, the remainder's sign following
the divisor. -/
theorem c7_floor_division_and_modulo :
    (∀ a b : PyVal, (a.isInt && b.isInt) = false →
      _apply_operator a b ("//".toList) = .error (.calcE (.intOperandsRequired ("//".toList))) ∧
      _apply_operator a b ("%".toList) = .error (.calcE (.intOperandsRequired ("%".toList)))) ∧
    (∀ x y : Int, y ≠ 0 →
      _apply_operator (.int x) (.int y) ("//".toList) = .ok (.int (Int.fdiv x y)) ∧
      _apply_operator (.int x) (.int y) ("%".toList) = .ok (.int (Int.fmod x y)) ∧
      y * Int.fdiv x y + Int.fmod x y = x ∧
      (0 < y → 0 ≤ Int.fmod x y ∧ Int.fmod x y < y) ∧
      (y < 0 → y < Int.fmod x y ∧ Int.fmod x y ≤ 0)) ∧
    evaluate_rpn_input "7.5 2 //" = .error (.intOperandsRequired ("//".toList)) ∧
    evaluate_rpn_input "7.5 2 %" = .error (.intOperandsRequired ("%".toList)) ∧
    evaluate_rpn_input "7 2 //" = .ok (.int 3) ∧
    evaluate_rpn_input "10 3 %" = .ok (.int 1) := by
  refine ⟨fun a b hab => ?_, fun x y hy => ?_, by decide, by decide, by decide, by decide⟩
  · rcases a with m | p | _ <;> rcases b with n | q | _ <;>
      simp_all [PyVal.isInt, _apply_operator]
  · have hdivmod := Int.fdiv_add_fmod x y
    refine ⟨by simp [_apply_operator, hy], by simp [_apply_operator, hy], hdivmod, ?_, ?_⟩
    · intro hpos
      exact ⟨Int.fmod_nonneg' x hpos, Int.fmod_lt_of_pos x hpos⟩
    · intro hneg
      have h1 : 0 ≤ Int.fmod (-x) (-y) := Int.fmod_nonneg' _ (by omega)
      have h2 : Int.fmod (-x) (-y) < -y := Int.fmod_lt_of_pos _ (by omega)
      rw [fmod_neg_neg] at h1 h2
      omega

/-- C7 witness: `(-7) // 2 = -4` and `(-7) % 2 = 1` (sign follows the
positive divisor), `7 % (-2) = -1` (sign follows the negative divisor). -/
theorem c7_floor_division_and_modulo_witness :
    _apply_operator (.int (-7)) (.int 2) ("//".toList) = .ok (.int (-4)) ∧
    _apply_operator (.int (-7)) (.int 2) ("%".toList) = .ok (.int 1) ∧
    _apply_operator (.int 7) (.int (-2)) ("%".toList) = .ok (.int (-1)) ∧
    _apply_operator (.float (15 / 2)) (.int 2) ("//".toList) =
      .error (.calcE (.intOperandsRequired ("//".toList))) :=
  ⟨by rw [(c7_floor_division_and_modulo.2.1 (-7) 2 (by decide)).1]; decide,
   by rw [(c7_floor_division_and_modulo.2.1 (-7) 2 (by decide)).2.1]; decide,
   by rw [(c7_floor_division_and_modulo.2.1 7 (-2) (by decide)).2.1]; decide,
   (c7_floor_division_and_modulo.1 (.float (15 / 2)) (.int 2) (by decide)).1⟩

/-- C8: on a binary operator the evaluator pops `b` from the top, then `a`
beneath it, and applies `op` to `(a, b)` in that order; in particular
`evaluate_rpn_input("5 2 -")` returns `3`, not `-3`. -/
theorem c8_binary_operator_operand_order :
    (∀ (ev : List Char → Except CalcErr PyVal) (op : List Char) (a b : PyVal)
        (st : List PyVal), op ∈ ALLOWED_OPERATORS →
      (∀ v, _apply_operator a b op = .ok v → stepTok ev op (b :: a :: st) = .ok (v :: st)) ∧
      (∀ e, _apply_operator a b op = .error e → stepTok ev op (b :: a :: st) = .error e)) ∧
    evaluate_rpn_input "5 2 -" = .ok (.int 3) ∧
    evaluate_rpn_input "5 2 -" ≠ .ok (.int (-3)) := by
  refine ⟨fun ev op a b st hop => ?_, by decide, by decide⟩
  have h7 : op = "+".toList ∨ op = "-".toList ∨ op = "*".toList ∨ op = "/".toList ∨
      op = "//".toList ∨ op = "%".toList ∨ op = "**".toList := by
    simpa [ALLOWED_OPERATORS] using hop
  rcases h7 with rfl | rfl | rfl | rfl | rfl | rfl | rfl <;>
    exact ⟨fun v hv => by simp +decide at hv; simp +decide [stepTok, hv],
           fun e he => by simp +decide at he; simp +decide [stepTok, he]⟩

/-- C8 witness: `"5 2 -"` at the step level — applying `-` to the stack
`[2, 5]` (top first) yields `5 - 2 = 3`. -/
theorem c8_binary_operator_operand_order_witness :
    stepTok (fun _ => .error .evaluationError) ("-".toList) [PyVal.int 2, PyVal.int 5] =
      .ok [PyVal.int 3] :=
  (c8_binary_operator_operand_order.1 (fun _ => .error .evaluationError) ("-".toList)
    (PyVal.int 5) (PyVal.int 2) [] (by decide)).1 (PyVal.int 3) (by decide)

/-- C3: every registered name that passes the membership and arity checks
of `_call_builtin` but is not exactly one of `abs`, `sqrt`, `pow`, `max`,
`min` falls through the whole dispatch and returns Python `None`, and
`_evaluate_tokens` pushes that `None` onto the operand stack (shown for
the count-suffixed `max3`, which even becomes the final "result" of
`"1 5 3 max3"`). -/
theorem c3_dispatch_fallthrough_pushes_none :
    (∀ (name : List Char) (args : List PyVal) (mn mx : Nat),
      lookupFn name = some (mn, mx) → mn ≤ args.length → args.length ≤ mx →
      name ≠ "abs".toList → name ≠ "sqrt".toList → name ≠ "pow".toList →
      name ≠ "max".toList → name ≠ "min".toList →
      _call_builtin name args = .ok PyVal.none) ∧
    (∀ (ev : List Char → Except CalcErr PyVal) (st : List PyVal), 3 ≤ st.length →
      stepTok ev ("max3".toList) st = .ok (PyVal.none :: st.drop 3)) ∧
    evaluate_rpn_input "1 5 3 max3" = .ok PyVal.none := by
  refine ⟨call_builtin_fallthrough, fun ev st h3 => ?_, by decide⟩
  rcases st with _ | ⟨a, _ | ⟨b, _ | ⟨c, rest⟩⟩⟩ <;> simp at h3
  rw [stepTok_function_eq ev _ _ 3 3 (by decide) (by decide) (by decide) (by decide)
    (by decide) (by decide)]
  have hcb : _call_builtin (['m', 'a', 'x', '3'] : List Char) [c, b, a] = .ok PyVal.none :=
    call_builtin_fallthrough _ _ 3 3 (by decide) (by simp) (by simp)
      (by decide) (by decide) (by decide) (by decide) (by decide)
  simp only [gt_iff_lt, lt_self_iff_false, if_false]
  rw [if_neg (by simp only [List.length_cons]; omega)]
  simp [hcb]

/-- C3 witness: `u-` with one argument falls through to `None`, and a
`max3` step on the three-element stack of `"1 5 3 max3"` pushes `None`. -/
theorem c3_dispatch_fallthrough_pushes_none_witness :
    _call_builtin ("u-".toList) [PyVal.int 5] = .ok PyVal.none ∧
    stepTok (fun _ => .error .evaluationError) ("max3".toList)
      [PyVal.int 3, PyVal.int 5, PyVal.int 1] = .ok [PyVal.none] :=
  ⟨c3_dispatch_fallthrough_pushes_none.1 ("u-".toList) [PyVal.int 5] 1 1 (by decide)
      (by decide) (by decide) (by decide) (by decide) (by decide) (by decide) (by decide),
   c3_dispatch_fallthrough_pushes_none.2.1 (fun _ => .error .evaluationError)
      [PyVal.int 3, PyVal.int 5, PyVal.int 1] (by decide)⟩

/-- C4: for a registry entry with `maxArgs > minArgs` (variadic), the
evaluator fails with the insufficient-arguments error when the stack has
fewer than `minArgs` values, and otherwise consumes exactly
`min(stackSize, maxArgs)` operands, handing them to the built-in in their
original left-to-right push order (the reversal of the popped prefix;
for a stack pushed from the list `xs`, the last `n` pushed values in push
order). -/
theorem c4_variadic_arity_consumption :
    (∀ (ev : List Char → Except CalcErr PyVal) (t : List Char) (mn mx : Nat)
        (st : List PyVal),
      lookupFn t = some (mn, mx) → mx > mn →
      ¬(t.head? = some '(' ∧ t.getLast? = some ')') → numFullmatch t = false →
      t ≠ "$".toList → t ≠ "~".toList → t ∉ ALLOWED_OPERATORS →
      (st.length < mn → stepTok ev t st = .error (.calcE (.insufficientFunctionArgs t))) ∧
      (mn ≤ st.length →
        stepTok ev t st =
          match _call_builtin t ((st.take (min st.length mx)).reverse) with
          | .ok v => .ok (v :: st.drop (min st.length mx))
          | .error e => .error (.calcE e))) ∧
    (∀ (xs : List PyVal) (n : Nat),
      (xs.reverse.take n).reverse = xs.drop (xs.length - n)) := by
  constructor
  · intro ev t mn mx st hl hv hp hn hd1 hd2 ho
    rw [stepTok_function_eq ev t st mn mx hp hn hd1 hd2 ho hl, if_pos hv]
    constructor
    · intro hlen
      rw [if_pos hlen]
    · intro hlen
      rw [if_neg (by omega)]
  · intro xs n
    rw [List.reverse_take]
    simp

/-- C4 witness: `max` (registered as variadic `(2, 10)`) on the stack of
`"1 3 max"` consumes both values and applies `max` to `[1, 3]` in push
order, yielding `3`. -/
theorem c4_variadic_arity_consumption_witness :
    stepTok (fun _ => .error .evaluationError) ("max".toList) [PyVal.int 3, PyVal.int 1] =
      .ok [PyVal.int 3] := by
  rw [(c4_variadic_arity_consumption.1 (fun _ => .error .evaluationError) ("max".toList)
    2 10 [PyVal.int 3, PyVal.int 1] (by decide) (by decide) (by decide) (by decide)
    (by decide) (by decide) (by decide)).2 (by decide)]
  decide

/-- C5: every pop is guarded by an explicit size check (an operator on a
stack of fewer than two values and a unary token on an empty stack fail
with the insufficiency errors instead of popping), and after all tokens
are consumed the stack must hold exactly one value: a successful
evaluation comes from a singleton final stack, any other final stack size
yields the "Неправильное выражение" (malformed expression) error — in
particular `"1 2"` fails that way. -/
theorem c5_stack_discipline :
    (∀ (ev : List Char → Except CalcErr PyVal) (t : List Char) (st : List PyVal),
      t ∈ ALLOWED_OPERATORS → st.length < 2 →
      stepTok ev t st = .error (.calcE (.insufficientOperator t))) ∧
    (∀ (ev : List Char → Except CalcErr PyVal) (u : List Char),
      u = "$".toList ∨ u = "~".toList →
      stepTok ev u [] = .error (.calcE .insufficientUnary)) ∧
    (∀ (ev : List Char → Except CalcErr PyVal) (toks : List (List Char)) (v : PyVal),
      _evaluate_tokens ev toks = .ok v → goTokens ev toks [] = .ok [v]) ∧
    (∀ (ev : List Char → Except CalcErr PyVal) (toks : List (List Char)) (st : List PyVal),
      goTokens ev toks [] = .ok st → st.length ≠ 1 →
      _evaluate_tokens ev toks = .error (.calcE .malformedExpression)) ∧
    evaluate_rpn_input "1 2" = .error .malformedExpression ∧
    evaluate_rpn_input "" = .error .malformedExpression := by
  refine ⟨?_, ?_, ?_, ?_, by decide, by decide⟩
  · intro ev t st hop hlen
    have h7 : t = "+".toList ∨ t = "-".toList ∨ t = "*".toList ∨ t = "/".toList ∨
        t = "//".toList ∨ t = "%".toList ∨ t = "**".toList := by
      simpa [ALLOWED_OPERATORS] using hop
    rcases st with _ | ⟨a, _ | ⟨b, r⟩⟩
    · rcases h7 with rfl | rfl | rfl | rfl | rfl | rfl | rfl <;> simp +decide [stepTok]
    · rcases h7 with rfl | rfl | rfl | rfl | rfl | rfl | rfl <;> simp +decide [stepTok]
    · simp only [List.length_cons] at hlen
      omega
  · intro ev u hu
    rcases hu with rfl | rfl <;> simp +decide [stepTok]
  · intro ev toks v h
    simp only [_evaluate_tokens] at h
    rcases hg : goTokens ev toks [] with e | st <;> rw [hg] at h
    · exact absurd h (by simp)
    · rcases st with _ | ⟨x, _ | ⟨y, r⟩⟩ <;> simp at h
      rw [h]
  · intro ev toks st hg hlen
    simp only [_evaluate_tokens]
    rw [hg]
    rcases st with _ | ⟨x, _ | ⟨y, r⟩⟩ <;> simp at hlen ⊢

/-- C5 witness: both guards fire on concrete underflows, a successful
run of `["1"]` leaves the singleton stack, and the two-value run of
`"1 2"` is rejected as malformed. -/
theorem c5_stack_discipline_witness :
    stepTok (fun _ => .error .evaluationError) ("+".toList) [PyVal.int 2] =
      .error (.calcE (.insufficientOperator ("+".toList))) ∧
    stepTok (fun _ => .error .evaluationError) ("~".toList) [] =
      .error (.calcE .insufficientUnary) ∧
    goTokens (fun _ => .error .evaluationError) ["1".toList] [] = .ok [PyVal.int 1] ∧
    _evaluate_tokens (fun _ => .error .evaluationError) ["1".toList, "2".toList] =
      .error (.calcE .malformedExpression) :=
  ⟨c5_stack_discipline.1 (fun _ => .error .evaluationError) ("+".toList) [PyVal.int 2]
      (by decide) (by decide),
   c5_stack_discipline.2.1 (fun _ => .error .evaluationError) ("~".toList) (Or.inr rfl),
   c5_stack_discipline.2.2.1 (fun _ => .error .evaluationError) ["1".toList]
      (PyVal.int 1) (by decide),
   c5_stack_discipline.2.2.2.1 (fun _ => .error .evaluationError)
      ["1".toList, "2".toList] [PyVal.int 2, PyVal.int 1] (by decide) (by decide)⟩

/-- C9: `evaluate_rpn_input` is a total function into
`Except CalcErr PyVal` (it returns a value or a CalculatorError, nothing
else), and its `except` clauses map the pipeline result as the source
does: a `CalculatorError` from deeper in the pipeline propagates
unchanged, an `IndexError` becomes the insufficient-operands error, a
`ZeroDivisionError` becomes the division-by-zero error, and any other
native exception is wrapped as the generic evaluation error. -/
theorem c9_exception_mapping :
    ∀ (s : String) (v : PyVal) (e : CalcErr) (pe : PyExc),
      (rpnPipeline (evaluate_rpn_inputF s.toList.length) s.toList = .ok v →
        evaluate_rpn_input s = .ok v) ∧
      (rpnPipeline (evaluate_rpn_inputF s.toList.length) s.toList = .error (.calcE e) →
        evaluate_rpn_input s = .error e) ∧
      (rpnPipeline (evaluate_rpn_inputF s.toList.length) s.toList = .error (.py .indexError) →
        evaluate_rpn_input s = .error .insufficientOperands) ∧
      (rpnPipeline (evaluate_rpn_inputF s.toList.length) s.toList =
          .error (.py .zeroDivisionError) →
        evaluate_rpn_input s = .error .divisionByZero) ∧
      (rpnPipeline (evaluate_rpn_inputF s.toList.length) s.toList = .error (.py pe) →
        pe ≠ .indexError → pe ≠ .zeroDivisionError →
        evaluate_rpn_input s = .error .evaluationError) := by
  intro s v e pe
  have hdef : evaluate_rpn_input s =
      match rpnPipeline (evaluate_rpn_inputF s.toList.length) s.toList with
      | .ok v => .ok v
      | .error exc => .error (excToCalcErr exc) := rfl
  refine ⟨fun h => ?_, fun h => ?_, fun h => ?_, fun h => ?_, fun h h1 h2 => ?_⟩ <;>
    rw [hdef, h] <;>
    first
      | rfl
      | cases pe <;> simp_all [excToCalcErr]

/-- C9 witness: a value propagates, a deep CalculatorError propagates
unchanged, a late `ZeroDivisionError` (from `0 ** -1`) maps to the
division-by-zero error, and a `TypeError` (from `None + 1`) is wrapped
as the generic evaluation error. -/
theorem c9_exception_mapping_witness :
    evaluate_rpn_input "1" = .ok (.int 1) ∧
    evaluate_rpn_input "2 +" = .error (.insufficientOperator ("+".toList)) ∧
    evaluate_rpn_input "0 0 1 - **" = .error .divisionByZero ∧
    evaluate_rpn_input "5 u- 1 +" = .error .evaluationError :=
  ⟨(c9_exception_mapping "1" (.int 1) .evaluationError .typeError).1 (by decide),
   (c9_exception_mapping "2 +" PyVal.none (.insufficientOperator ("+".toList))
      .typeError).2.1 (by decide),
   (c9_exception_mapping "0 0 1 - **" PyVal.none .evaluationError .typeError).2.2.2.1
      (by decide),
   (c9_exception_mapping "5 u- 1 +" PyVal.none .evaluationError .typeError).2.2.2.2
      (by decide) (by decide) (by decide)⟩

/-- C10 counterexample: the claim's example input `"(1 2 +) (3 4 +) *"`
ends with `*`, not `)`, so the auto-wrap test is false, the input IS
wrapped, and evaluation returns `21` — it does not raise a
CalculatorError as the claim asserts for its example. -/
theorem c10_counterexample_example_is_wrapped :
    pyWrapped (pyStrip ("(1 2 +) (3 4 +) *".toList)) = false ∧
    evaluate_rpn_input "(1 2 +) (3 4 +) *" = .ok (.int 21) := by
  refine ⟨by decide, by decide⟩

/-- C10 (amended): the auto-wrap decision inspects only the first and last
characters of the trimmed input; for every input whose trimmed form
starts with `(` and ends with `)` while those two brackets are not a
matching pair (e.g. `"(1 2 +) (3 4 +)"`), no wrapping occurs, the outer
characters are stripped anyway, and evaluation raises a CalculatorError
instead of treating the input as an unparenthesized top-level expression
and returning its value. -/
theorem c10_autowrap_inspects_first_last_only :
    (∀ u v : List Char, u.head? = v.head? → u.getLast? = v.getLast? →
      pyWrapped u = pyWrapped v) ∧
    (∀ (s : String) (r : List Char),
      pyStrip s.toList = '(' :: r →
      r.getLast? = some ')' →
      _find_matching_parenthesis r 1 ≠ .ok r →
      pyWrapped (pyStrip s.toList) = true ∧ ∃ e, evaluate_rpn_input s = .error e) ∧
    evaluate_rpn_input "(1 2 +) (3 4 +)" = .error (.unknownSymbol ')') := by
  refine ⟨fun u v h1 h2 => ?_, fun s r hs hr hnm => ?_, by decide⟩
  · rw [pyWrapped, pyWrapped, h1, h2]
  · have hrne : r ≠ [] := by
      rintro rfl
      simp at hr
    have hlastc : ('(' :: r).getLast? = some ')' := by
      rw [show ('(' :: r) = ['('] ++ r from rfl, List.getLast?_append, hr]
      rfl
    have hw : pyWrapped (pyStrip s.toList) = true := by
      rw [hs, pyWrapped, hlastc]
      simp
    refine ⟨hw, ?_⟩
    have hfail : ∀ toks, _tokenize_expression (pyStrip r.dropLast) ≠ .ok toks := by
      rcases hfm : _find_matching_parenthesis r 1 with e | span
      · have hall := find_matching_error r 1 e le_rfl hfm
        have hbalr : 0 ≤ parenBal r := by
          have h1 := hall r (List.prefix_refl r)
          omega
        have hrsplit : r.dropLast ++ [')'] = r :=
          List.dropLast_append_getLast? ')' (Option.mem_def.mpr hr)
        have hbald : parenBal r.dropLast = parenBal r + 1 := by
          have hc := congrArg parenBal hrsplit
          rw [parenBal_append, show parenBal [')'] = -1 from rfl] at hc
          omega
        apply tokenize_not_ok_of_nonzero
        rw [parenBal_pyStrip, hbald]
        omega
      · have hne : span ≠ r := fun he => hnm (he ▸ hfm)
        obtain ⟨hpre, hbal, _, hlast⟩ := find_matching_ok r 1 span le_rfl hfm
        obtain ⟨t, ht⟩ := hpre
        have htne : t ≠ [] := by
          rintro rfl
          rw [List.append_nil] at ht
          exact hne ht
        have hspl : span <+: r.dropLast := by
          rw [← ht, List.dropLast_append_of_ne_nil span htne]
          exact List.prefix_append span t.dropLast
        obtain ⟨u, hu, hbu⟩ := strip_prefix_neg hspl (by rw [hbal]; norm_num) hlast
        exact fun toks => tokenize_not_ok_of_neg_prefix hu hbu toks
    rcases htk : _tokenize_expression (pyStrip r.dropLast) with e | toks
    · refine ⟨e, ?_⟩
      have hdef : evaluate_rpn_input s =
          match rpnPipeline (evaluate_rpn_inputF s.toList.length) s.toList with
          | .ok v => .ok v
          | .error exc => .error (excToCalcErr exc) := rfl
      have hpipe : rpnPipeline (evaluate_rpn_inputF s.toList.length) s.toList =
          .error (.calcE e) := by
        rw [rpnPipeline, hs]
        rw [show pyWrapped ('(' :: r) = true from hs ▸ hw]
        simp only [if_true, List.drop_succ_cons, List.drop_zero]
        rw [htk]
      rw [hdef, hpipe]
      rfl
    · exact absurd htk (hfail toks)

/-- C10 witness: the corrected example `"(1 2 +) (3 4 +)"` starts with `(`
and ends with `)`, the two brackets are not a matching pair, no wrapping
occurs, and evaluation raises a CalculatorError. -/
theorem c10_autowrap_inspects_first_last_only_witness :
    pyWrapped (pyStrip ("(1 2 +) (3 4 +)".toList)) = true ∧
    ∃ e, evaluate_rpn_input "(1 2 +) (3 4 +)" = .error e :=
  c10_autowrap_inspects_first_last_only.2.1 "(1 2 +) (3 4 +)"
    ("1 2 +) (3 4 +)".toList) (by decide) (by decide) (by decide)

end Rpn
